import Mathlib

/-!
Verification of the flowly conversational orchestrator.

This file shallowly embeds the Go sources of the repository
(`part_000`, the webhook/state-machine file, and `calendar.go`) into
Lean 4 and proves properties of the embedded definitions.  Machine
integers are modelled as `Int`/`Nat` (no overflow is relevant at the
sizes involved), Go `error` results are modelled with `Option`/`Except`,
Go maps are modelled as association lists with first-match lookup, and
instants are modelled as minute (slot scan) or second (RFC3339)
counts.  Every definition is executable so that concrete runs can be
checked by `decide`/`rfl`.
-/

namespace Flowly

/-! ## Go string helpers

The brace character is written via `Char.ofNat` throughout so that
placeholder syntax stays out of string literals. -/

def lbrace : Char := Char.ofNat 123

def rbrace : Char := Char.ofNat 125

/-- The placeholder delimiters used by `renderVars`: `lbrace` twice. -/
def phOpen : String := String.mk [lbrace, lbrace]

def phClose : String := String.mk [rbrace, rbrace]

/-- Go `unicode.IsSpace` restricted to the characters it recognises in
Latin-1 (space, \t, \n, \v, \f, \r, NEL, NBSP); the remaining Unicode
White_Space code points are not modelled (no claim depends on them). -/
def goIsSpace (c : Char) : Bool :=
  c = ' ' || c = '\t' || c = '\n' || c.toNat = 11 || c.toNat = 12 ||
  c = '\r' || c.toNat = 133 || c.toNat = 160

/-- Go `strings.TrimSpace` on the character list. -/
def trimSpaceList (l : List Char) : List Char :=
  ((l.dropWhile goIsSpace).reverse.dropWhile goIsSpace).reverse

def trimSpace (s : String) : String := String.mk (trimSpaceList s.data)

/-- ASCII lower-casing of one character. -/
def asciiLower (c : Char) : Char :=
  if 'A' ≤ c ∧ c ≤ 'Z' then Char.ofNat (c.toNat + 32) else c

/-- Go `strings.EqualFold`, specialised to ASCII simple folding; this is
exact for the only keyword the program compares ("menu"), whose letters
have no non-ASCII simple case-folds. -/
def equalFold (a b : String) : Bool :=
  a.data.map asciiLower == b.data.map asciiLower

/-- `leadsWith pat s` holds when `pat` is an initial segment of `s`. -/
def leadsWith : List Char → List Char → Bool
  | [], _ => true
  | _ :: _, [] => false
  | p :: ps, c :: cs => p == c && leadsWith ps cs

/-- `occursIn pat s`: `pat` appears as a contiguous segment of `s`. -/
def occursIn (pat : List Char) : List Char → Bool
  | [] => leadsWith pat []
  | c :: rest => leadsWith pat (c :: rest) || occursIn pat rest

/-- Go `strings.ReplaceAll` on character lists: scan left to right,
replacing each (non-overlapping) occurrence of `pat` by `v`.  Go's
behaviour for the empty pattern (inserting `v` between runes) is not
modelled — `renderVars` only ever passes patterns of length ≥ 4.  The
recursion is phrased structurally over a fuel that starts at the input
length (an upper bound on the number of scan steps, since each step
consumes at least one character), so the kernel can evaluate it. -/
def replaceAllAux (fuel : Nat) (s pat v : List Char) : List Char :=
  match fuel, s with
  | 0, s => s
  | _ + 1, [] => []
  | fuel + 1, c :: rest =>
    if pat ≠ [] ∧ leadsWith pat (c :: rest) = true then
      v ++ replaceAllAux fuel ((c :: rest).drop pat.length) pat v
    else
      c :: replaceAllAux fuel rest pat v

def replaceAllList (s pat v : List Char) : List Char :=
  replaceAllAux s.length s pat v

def replaceAll (s pat v : String) : String :=
  String.mk (replaceAllList s.data pat.data v.data)

/-- `renderVars` from `part_000`: sequentially `ReplaceAll` each
`lbrace lbrace key rbrace rbrace` placeholder by its value.  The Go
original iterates a map in unspecified order; the embedding takes the
order as an explicit association list. -/
def renderVars (s : String) (vars : List (String × String)) : String :=
  if s = "" ∨ vars = [] then s
  else vars.foldl (fun acc kv => replaceAll acc (phOpen ++ kv.1 ++ phClose) kv.2) s

/-- `pat` occurs as a contiguous substring of `s` (proposition form). -/
def Substr (pat s : String) : Prop :=
  ∃ p q, s.data = p ++ pat.data ++ q

instance {α β : Type} [DecidableEq α] [DecidableEq β] : DecidableEq (Except α β) := fun x y =>
  match x, y with
  | .ok a, .ok b =>
    if h : a = b then isTrue (by rw [h])
    else isFalse (by intro hc; injection hc; contradiction)
  | .error a, .error b =>
    if h : a = b then isTrue (by rw [h])
    else isFalse (by intro hc; injection hc; contradiction)
  | .ok _, .error _ => isFalse (by intro hc; exact Except.noConfusion hc)
  | .error _, .ok _ => isFalse (by intro hc; exact Except.noConfusion hc)

/-! ## Flow configuration (part_000) -/

structure FlowRow where
  id : String
  title : String
  description : String
deriving DecidableEq, Repr

structure FlowSection where
  title : String
  rows : List FlowRow
deriving DecidableEq, Repr

structure FlowList where
  header : String
  buttonText : String
  footer : String
  sections : List FlowSection
deriving DecidableEq, Repr

structure FlowState where
  type : String
  body : String
  list : Option FlowList
  onTextNext : String
  onSelectNext : Option (List (String × String))
deriving DecidableEq, Repr

structure FlowConfig where
  version : String
  states : List (String × FlowState)
deriving DecidableEq, Repr

/-- First-match association-list lookup, modelling Go map indexing. -/
def alistGet {β : Type} (k : String) : List (String × β) → Option β
  | [] => none
  | (k', v) :: rest => if k' = k then some v else alistGet k rest

/-- `utf8.RuneCountInString`: the number of code points. -/
def runeLen (s : String) : Nat := s.data.length

/-- Go `%q` on the strings appearing in validation messages (escaping of
special characters inside the value is not modelled). -/
def quoteGo (s : String) : String := "\"" ++ s ++ "\""

/-- The `fmt.Sprintf` texts of `validateFlowConfig`, one def per
offending field so theorems can name them. -/
def headerErrMsg (stateName : String) (l : FlowList) : String :=
  "state=" ++ stateName ++ " header > 60 (" ++ toString (runeLen l.header) ++ "): " ++
    quoteGo l.header

def footerErrMsg (stateName : String) (l : FlowList) : String :=
  "state=" ++ stateName ++ " footer > 60 (" ++ toString (runeLen l.footer) ++ "): " ++
    quoteGo l.footer

def buttonErrMsg (stateName : String) (l : FlowList) : String :=
  "state=" ++ stateName ++ " button_text > 20 (" ++ toString (runeLen l.buttonText) ++ "): " ++
    quoteGo l.buttonText

def secTitleErrMsg (stateName : String) (sec : FlowSection) : String :=
  "state=" ++ stateName ++ " section title > 24 (" ++ toString (runeLen sec.title) ++ "): " ++
    quoteGo sec.title

def rowIdErrMsg (stateName : String) (row : FlowRow) : String :=
  "state=" ++ stateName ++ " row id vacío (title=" ++ quoteGo row.title ++ ")"

def rowTitleErrMsg (stateName : String) (row : FlowRow) : String :=
  "state=" ++ stateName ++ " row title > 24 (" ++ toString (runeLen row.title) ++ "): " ++
    quoteGo row.title

def rowDescErrMsg (stateName : String) (row : FlowRow) : String :=
  "state=" ++ stateName ++ " row desc > 72 (" ++ toString (runeLen row.description) ++ "): " ++
    quoteGo row.description

/-- The validation messages contributed by one row of an interactive
list (`validateFlowConfig`, rows loop). -/
def rowErrs (stateName : String) (row : FlowRow) : List String :=
  (if row.id = "" then [rowIdErrMsg stateName row] else []) ++
  (if runeLen row.title > 24 then [rowTitleErrMsg stateName row] else []) ++
  (if runeLen row.description > 72 then [rowDescErrMsg stateName row] else [])

/-- The validation messages contributed by one section. -/
def secErrs (stateName : String) (sec : FlowSection) : List String :=
  (if runeLen sec.title > 24 then [secTitleErrMsg stateName sec] else []) ++
  (sec.rows.map (rowErrs stateName)).flatten

/-- The validation messages contributed by one interactive list. -/
def listErrs (stateName : String) (l : FlowList) : List String :=
  (if runeLen l.header > 60 then [headerErrMsg stateName l] else []) ++
  (if runeLen l.footer > 60 then [footerErrMsg stateName l] else []) ++
  (if runeLen l.buttonText > 20 then [buttonErrMsg stateName l] else []) ++
  (l.sections.map (secErrs stateName)).flatten

/-- The validation messages contributed by one state
(`validateFlowConfig`, outer loop body). -/
def stateErrs (stateName : String) (st : FlowState) : List String :=
  if st.type ≠ "interactive_list" then [] else
  match st.list with
  | none => []
  | some l => listErrs stateName l

/-- All validation messages of a flow configuration, in state order. -/
def flowErrs (cfg : FlowConfig) : List String :=
  (cfg.states.map (fun p => stateErrs p.1 p.2)).flatten

/-- Go `strings.Join l sep`. -/
def joinSep (sep : String) : List String → String
  | [] => ""
  | [x] => x
  | x :: y :: rest => x ++ sep ++ joinSep sep (y :: rest)

/-- The aggregated validation error text. -/
def flowErrString (tenant : String) (cfg : FlowConfig) : String :=
  "flow inválido tenant=" ++ tenant ++ ":\n- " ++ joinSep "\n- " (flowErrs cfg)

/-- `validateFlowConfig`: `some err` models a non-nil Go error. -/
def validateFlowConfig (tenant : String) (cfg : FlowConfig) : Option String :=
  if flowErrs cfg ≠ [] then some (flowErrString tenant cfg) else none

/-- `loadFlowConfig`, with the file read and JSON decode (I/O) modelled
as the already-parsed on-disk configuration. -/
def loadFlowConfig (tenant : String) (onDisk : FlowConfig) : Except String FlowConfig :=
  if onDisk.states = [] then
    .error ("flow.json de " ++ tenant ++ " no tiene states")
  else
    match validateFlowConfig tenant onDisk with
    | some e => .error e
    | none => .ok onDisk

/-- `ConfigCache.Set`: map store, modelled as cons (first match wins on
lookup, so this overwrites). -/
def cacheSet (cache : List (String × FlowConfig)) (tenant : String) (cfg : FlowConfig) :
    List (String × FlowConfig) :=
  (tenant, cfg) :: cache

/-- The load-on-miss step shared by `processMessage` and
`RenderAndSend`: return the cached config, or load, cache and return
it; on load failure the cache is left untouched. -/
def loadOnMiss (cache : List (String × FlowConfig)) (tenant : String) (onDisk : FlowConfig) :
    List (String × FlowConfig) × Except String FlowConfig :=
  match alistGet tenant cache with
  | some cfg => (cache, .ok cfg)
  | none =>
    match loadFlowConfig tenant onDisk with
    | .error e => (cache, .error e)
    | .ok c => (cacheSet cache tenant c, .ok c)

/-! ## Inbound messages and the state machine (part_000) -/

structure ButtonReply where
  id : String
  title : String
deriving DecidableEq, Repr

structure ListReply where
  id : String
  title : String
  description : String
deriving DecidableEq, Repr

structure InteractivePayload where
  type : String
  buttonReply : Option ButtonReply
  listReply : Option ListReply
deriving DecidableEq, Repr

structure IncomingMessage where
  from_ : String
  id : String
  timestamp : String
  type : String
  text : Option String
  interactive : Option InteractivePayload
deriving DecidableEq, Repr

/-- The selection step shared verbatim by the `list_reply` and
`button_reply` branches of `processMessage`: follow `OnSelectNext` when
it maps the id to a non-empty state. -/
def selectNext (st : FlowState) (rid : String) : String × Bool :=
  match st.onSelectNext with
  | none => ("MENU", false)
  | some m =>
    match alistGet rid m with
    | some ns => if ns ≠ "" then (ns, true) else ("MENU", false)
    | none => ("MENU", false)

/-- The decision core of `processMessage`, after the tenant's flow
configuration has been resolved. -/
def decideNext (cfg : FlowConfig) (state : String) (msg : IncomingMessage) : String × Bool :=
  match alistGet state cfg.states with
  | none => ("MENU", false)
  | some st =>
    if msg.type = "text" then
      match msg.text with
      | none => ("MENU", false)
      | some body =>
        let txt := trimSpace body
        if equalFold txt "menu" then ("MENU", true)
        else if st.onTextNext ≠ "" then (st.onTextNext, true)
        else ("MENU", false)
    else if msg.type = "interactive" then
      match msg.interactive with
      | none => ("MENU", false)
      | some iv =>
        if iv.type = "list_reply" then
          match iv.listReply with
          | none => ("MENU", false)
          | some lr => selectNext st lr.id
        else if iv.type = "button_reply" then
          match iv.buttonReply with
          | none => ("MENU", false)
          | some br => selectNext st br.id
        else ("MENU", false)
    else ("MENU", false)

/-- `processMessage`: load-on-miss of the tenant's flow configuration
followed by the decision core; returns the updated cache alongside the
result. -/
def processMessage (cache : List (String × FlowConfig)) (tenant : String) (onDisk : FlowConfig)
    (state : String) (msg : IncomingMessage) :
    List (String × FlowConfig) × Except String (String × Bool) :=
  match loadOnMiss cache tenant onDisk with
  | (c, .error e) => (c, .error e)
  | (c, .ok cfg) => (c, .ok (decideNext cfg state msg))

/-! ## Calendar configuration (calendar.go, `NewCalendarService`) -/

structure TenantCalendarConfig where
  calendarID : String
  startHour : Int
  endHour : Int
  workDays : List Int
deriving DecidableEq, Repr

/-- The fields actually present in the tenant's `calendar.json`:
`json.Unmarshal` into a pre-initialised struct leaves absent fields at
their defaults, which `Option.getD` models. -/
structure RawCalendarJSON where
  calendarID : Option String
  startHour : Option Int
  endHour : Option Int
  workDays : Option (List Int)
deriving DecidableEq, Repr

/-- The configuration after defaults and the JSON overlay
(`NewCalendarService`, the `cfg` value before validation). -/
def mergeTenantConfig (raw : RawCalendarJSON) : TenantCalendarConfig :=
  ⟨raw.calendarID.getD "", raw.startHour.getD 9, raw.endHour.getD 17,
    raw.workDays.getD [1, 2, 3, 4, 5]⟩

structure CalendarService where
  calID : String
  startHour : Int
  endHour : Int
  workDays : List Int
deriving DecidableEq, Repr

/-- `NewCalendarService` with its I/O (credential lookup, file read,
client construction) dropped: the calendar-id requirement and the range
clamps on the merged configuration, in source order. -/
def newCalendarService (tenant : String) (raw : RawCalendarJSON) :
    Except String CalendarService :=
  let cfg := mergeTenantConfig raw
  if cfg.calendarID = "" then
    .error ("no se encontró calendar_id para el tenant " ++ tenant)
  else
    let s := if cfg.startHour < 0 then 9 else cfg.startHour
    let e := if cfg.endHour > 24 then 17 else cfg.endHour
    let w := if cfg.workDays = [] then [1, 2, 3, 4, 5] else cfg.workDays
    .ok ⟨cfg.calendarID, s, e, w⟩

/-! ## Slot scan (calendar.go, `GetNextAvailableSlots`)

Instants are minutes on the local clock of the configured zone
(America/Argentina/Buenos_Aires, which has no daylight-saving
transitions, so consecutive civil days are a constant 1440 minutes
apart).  The single free/busy response is modelled as already-parsed
`[start, end)` minute intervals (the Go code parses each interval's
RFC3339 strings and ignores parse errors).  A `Slot` keeps its display
id and its start instant, from which the Go code derives the two
display strings. -/

structure Slot where
  id : String
  startMin : Int
deriving DecidableEq, Repr

structure ScanEnv where
  /-- Midnight of the scan's day 0, minutes. -/
  todayStart : Int
  /-- The evaluation instant `now`, minutes. -/
  now : Int
  /-- Weekday of day 0 (0 = Sunday, as in Go's `time.Weekday`). -/
  weekday0 : Nat
  startHour : Int
  endHour : Int
  workDays : List Int
  /-- Busy intervals from the one free/busy query, minutes. -/
  busy : List (Int × Int)
deriving DecidableEq, Repr

/-- Start instant of the candidate slot on scan day `d` at hour `h`
(`time.Date(day.Year(), day.Month(), day.Day(), h, 0, 0, 0, loc)`). -/
def slotStartMin (env : ScanEnv) (d : Nat) (h : Int) : Int :=
  env.todayStart + 1440 * d + 60 * h

/-- The busy check of the inner loop: half-open interval overlap
against every fetched busy range. -/
def isBusy (busy : List (Int × Int)) (slotStart slotEnd : Int) : Bool :=
  busy.any fun b => slotStart < b.2 && slotEnd > b.1

/-- The hour loop (`for h := c.StartHour; h < c.EndHour; h++`), phrased
structurally: `hoursLeft` counts the iterations remaining, so the call
site passes `(endHour - startHour).toNat`, which equals the number of
times the source's `h < c.EndHour` test succeeds. -/
def hourLoop (env : ScanEnv) (d : Nat) (h : Int) (hoursLeft : Nat)
    (slots : List Slot) (counter : Nat) : List Slot × Nat :=
  match hoursLeft with
  | 0 => (slots, counter)
  | n + 1 =>
    if slots.length ≥ 3 then (slots, counter)
    else if slotStartMin env d h < env.now then
      hourLoop env d (h + 1) n slots counter
    else if isBusy env.busy (slotStartMin env d h) (slotStartMin env d h + 60) then
      hourLoop env d (h + 1) n slots counter
    else
      hourLoop env d (h + 1) n
        (slots ++ [⟨"SLOT_" ++ toString counter, slotStartMin env d h⟩]) (counter + 1)

/-- The day loop (`for d := 0; d < 10; d++`), phrased structurally over
the remaining day count. -/
def dayLoop (env : ScanEnv) (d : Nat) (daysLeft : Nat)
    (slots : List Slot) (counter : Nat) : List Slot :=
  match daysLeft with
  | 0 => slots
  | n + 1 =>
    if slots.length ≥ 3 then slots
    else if env.workDays.contains (((env.weekday0 + d) % 7 : Nat) : Int) then
      dayLoop env (d + 1) n
        (hourLoop env d env.startHour (env.endHour - env.startHour).toNat slots counter).1
        (hourLoop env d env.startHour (env.endHour - env.startHour).toNat slots counter).2
    else
      dayLoop env (d + 1) n slots counter

/-- `GetNextAvailableSlots` after the free/busy query: scan up to 10
days, collecting at most 3 free slots, the display counter starting
at 1. -/
def getNextAvailableSlots (env : ScanEnv) : List Slot :=
  dayLoop env 0 10 [] 1

/-- End of the free/busy query window: `now.Add(7 * 24 * time.Hour)`. -/
def queryWindowEnd (env : ScanEnv) : Int :=
  env.now + 7 * 1440

/-! ## RFC3339 timestamps and booking (calendar.go, `CreateAppointment`)

Go's `time.Time` is modelled as seconds since the Unix epoch plus the
zone offset in minutes; sub-second precision is not carried (RFC3339
fractional seconds are accepted and discarded, as `Format(RFC3339)`
drops them).  Civil-date conversion uses the standard era-based
algorithm with truncating division (`Int.tdiv`), matching the
semantics the algorithm is stated for. -/

structure GoTime where
  sec : Int
  offsetMin : Int
deriving DecidableEq, Repr

def isLeap (y : Int) : Bool :=
  Int.emod y 4 = 0 && (Int.emod y 100 ≠ 0 || Int.emod y 400 = 0)

def daysInMonth (y m : Int) : Int :=
  if m = 1 ∨ m = 3 ∨ m = 5 ∨ m = 7 ∨ m = 8 ∨ m = 10 ∨ m = 12 then 31
  else if m = 4 ∨ m = 6 ∨ m = 9 ∨ m = 11 then 30
  else if isLeap y then 29 else 28

/-- Days since 1970-01-01 of the civil date `y-m-d`. -/
def daysFromCivil (y m d : Int) : Int :=
  let y' := if m ≤ 2 then y - 1 else y
  let era := Int.tdiv (if y' ≥ 0 then y' else y' - 399) 400
  let yoe := y' - era * 400
  let mp := Int.emod (m + 9) 12
  let doy := Int.tdiv (153 * mp + 2) 5 + d - 1
  let doe := yoe * 365 + Int.tdiv yoe 4 - Int.tdiv yoe 100 + doy
  era * 146097 + doe - 719468

/-- Civil date `(y, m, d)` of a day count since 1970-01-01. -/
def civilFromDays (z : Int) : Int × Int × Int :=
  let z' := z + 719468
  let era := Int.tdiv (if z' ≥ 0 then z' else z' - 146096) 146097
  let doe := z' - era * 146097
  let yoe := Int.tdiv (doe - Int.tdiv doe 1460 + Int.tdiv doe 36524 - Int.tdiv doe 146096) 365
  let y := yoe + era * 400
  let doy := doe - (365 * yoe + Int.tdiv yoe 4 - Int.tdiv yoe 100)
  let mp := Int.tdiv (5 * doy + 2) 153
  let d := doy - Int.tdiv (153 * mp + 2) 5 + 1
  let m := mp + (if mp < 10 then 3 else -9)
  (if m ≤ 2 then y + 1 else y, m, d)

def isDig (c : Char) : Bool := 48 ≤ c.toNat && c.toNat ≤ 57

def digitVal (c : Char) : Nat := c.toNat - 48

/-- Read exactly `n` decimal digits, most significant first. -/
def readFixed (n : Nat) (acc : Nat) (l : List Char) : Option (Nat × List Char) :=
  match n, l with
  | 0, l => some (acc, l)
  | _ + 1, [] => none
  | n + 1, c :: rest =>
    if isDig c then readFixed n (acc * 10 + digitVal c) rest else none

def expectChar (c : Char) (l : List Char) : Option (List Char) :=
  match l with
  | [] => none
  | c' :: rest => if c' = c then some rest else none

/-- Optional fractional second: `.` or `,` followed by at least one
digit; the digits are discarded. -/
def skipFrac (l : List Char) : Option (List Char) :=
  match l with
  | [] => some []
  | c :: rest =>
    if c = '.' ∨ c = ',' then
      let ds := rest.dropWhile isDig
      if ds.length < rest.length then some ds else none
    else some (c :: rest)

/-- The zone suffix: `Z`, or `±hh:mm` with `hh ≤ 23`, `mm ≤ 59`;
returns the offset in minutes and requires the input to end there. -/
def parseZone (l : List Char) : Option Int :=
  match l with
  | ['Z'] => some 0
  | c :: rest =>
    if c = '+' ∨ c = '-' then do
      let (oh, rest) ← readFixed 2 0 rest
      let rest ← expectChar ':' rest
      let (om, rest) ← readFixed 2 0 rest
      if rest = [] ∧ oh ≤ 23 ∧ om ≤ 59 then
        let off : Int := oh * 60 + om
        some (if c = '-' then -off else off)
      else none
    else none
  | _ => none

/-- The date part `YYYY-MM-DD`. -/
def parseYMD (l : List Char) : Option (Nat × Nat × Nat × List Char) := do
  let (y, l) ← readFixed 4 0 l
  let l ← expectChar '-' l
  let (mo, l) ← readFixed 2 0 l
  let l ← expectChar '-' l
  let (d, l) ← readFixed 2 0 l
  some (y, mo, d, l)

/-- The time-of-day part `HH:MM:SS`. -/
def parseHMS (l : List Char) : Option (Nat × Nat × Nat × List Char) := do
  let (h, l) ← readFixed 2 0 l
  let l ← expectChar ':' l
  let (mi, l) ← readFixed 2 0 l
  let l ← expectChar ':' l
  let (se, l) ← readFixed 2 0 l
  some (h, mi, se, l)

/-- `time.Parse(time.RFC3339, _)`: `YYYY-MM-DDTHH:MM:SS`, optional
fractional second, and a zone suffix, with Go's range validation. -/
def parseRFC3339 (s : String) : Option GoTime := do
  let (y, mo, d, l) ← parseYMD s.data
  let l ← expectChar 'T' l
  let (h, mi, se, l) ← parseHMS l
  let l ← skipFrac l
  let off ← parseZone l
  if 1 ≤ mo ∧ mo ≤ 12 ∧ 1 ≤ (d : Int) ∧ (d : Int) ≤ daysInMonth y mo ∧
      h ≤ 23 ∧ mi ≤ 59 ∧ se ≤ 59 then
    some ⟨daysFromCivil y mo d * 86400 + h * 3600 + mi * 60 + se - off * 60, off⟩
  else none

def pad2 (n : Nat) : String := if n < 10 then "0" ++ toString n else toString n

def pad4 (n : Nat) : String :=
  (if n < 10 then "000" else if n < 100 then "00" else if n < 1000 then "0" else "") ++ toString n

/-- `t.Format(time.RFC3339)`: civil local time from `sec + offset`,
with `Z` printed exactly when the offset is zero. -/
def formatRFC3339 (t : GoTime) : String :=
  let localSec := t.sec + t.offsetMin * 60
  let days := Int.ediv localSec 86400
  let sod := (Int.emod localSec 86400).toNat
  let ymd := civilFromDays days
  let zone :=
    if t.offsetMin = 0 then "Z"
    else (if t.offsetMin > 0 then "+" else "-") ++
      pad2 (t.offsetMin.natAbs / 60) ++ ":" ++ pad2 (t.offsetMin.natAbs % 60)
  pad4 ymd.1.toNat ++ "-" ++ pad2 ymd.2.1.toNat ++ "-" ++ pad2 ymd.2.2.toNat ++ "T" ++
    pad2 (sod / 3600) ++ ":" ++ pad2 (sod % 3600 / 60) ++ ":" ++ pad2 (sod % 60) ++ zone

structure CalEvent where
  summary : String
  description : String
  startDateTime : String
  endDateTime : String
deriving DecidableEq, Repr

/-- `startTime.Add(1 * time.Hour)`. -/
def addOneHour (t : GoTime) : GoTime := ⟨t.sec + 3600, t.offsetMin⟩

/-- `CreateAppointment` up to the service call: parse the start, build
the one event inserted on success; the Go error wraps the parse
error's own text, which is not modelled. -/
def createAppointment (isoStart contactName contactPhone : String) :
    Except String CalEvent :=
  match parseRFC3339 isoStart with
  | none => .error "fecha inválida"
  | some t =>
    .ok ⟨"Turno Flowly: " ++ contactName,
      "Paciente agendado vía WhatsApp.\nTeléfono: " ++ contactPhone,
      formatRFC3339 t, formatRFC3339 (addOneHour t)⟩

/-! ## Segment model of well-delimited templates

Used to analyse `renderVars`: a template that alternates brace-free
literal text with complete placeholders is represented as a segment
list, with `assemble` recovering its character sequence. -/

inductive Seg where
  | txt : List Char → Seg
  | ph : List Char → Seg
deriving DecidableEq, Repr

def assembleSeg : Seg → List Char
  | .txt t => t
  | .ph k => lbrace :: lbrace :: (k ++ [rbrace, rbrace])

def assemble (segs : List Seg) : List Char := (segs.map assembleSeg).flatten

def braceFree (l : List Char) : Bool := l.all fun c => c ≠ lbrace ∧ c ≠ rbrace

def wfSeg : Seg → Bool
  | .txt t => braceFree t
  | .ph k => braceFree k

def wfSegs (segs : List Seg) : Bool := segs.all wfSeg

/-- The character sequence of the placeholder for key `k`. -/
def phKeyList (k : List Char) : List Char :=
  lbrace :: lbrace :: (k ++ [rbrace, rbrace])

/-- One sequential substitution step on a segment: the placeholder
whose key is `k` becomes literal text `v`. -/
def segSubstOne (k v : List Char) : Seg → Seg
  | .txt t => .txt t
  | .ph k' => if k' = k then .txt v else .ph k'

/-- The simultaneous (order-free) substitution on segments: each
placeholder with a mapped key becomes its value, other segments are
untouched. -/
def segApply (vars : List (String × String)) : Seg → Seg
  | .txt t => .txt t
  | .ph k =>
    match alistGet (String.mk k) vars with
    | some v => .txt v.data
    | none => .ph k

/-- `renderVars`'s fold at the character-list level. -/
def renderList (l : List Char) (vars : List (String × String)) : List Char :=
  vars.foldl (fun acc kv => replaceAllList acc (phKeyList kv.1.data) kv.2.data) l

/-! ## Concrete fixtures for witnesses and counterexamples -/

def menuState : FlowState := ⟨"text", "Hola", none, "", none⟩

def c1cfg : FlowConfig := ⟨"1", [("MENU", menuState)]⟩

def c1msg : IncomingMessage := ⟨"5491155", "wamid.1", "0", "text", some " MeNu ", none⟩

def c2state : FlowState :=
  ⟨"interactive_list", "Elegí una opción", none, "",
    some [("opt1", "NEXT"), ("emptyTarget", "")]⟩

def c2cfg : FlowConfig := ⟨"1", [("S", c2state), ("MENU", menuState)]⟩

def c2listMsg (rid : String) : IncomingMessage :=
  ⟨"5491155", "wamid.2", "0", "interactive", none,
    some ⟨"list_reply", none, some ⟨rid, "Título", ""⟩⟩⟩

def c2buttonMsg (rid : String) : IncomingMessage :=
  ⟨"5491155", "wamid.3", "0", "interactive", none,
    some ⟨"button_reply", some ⟨rid, "Título"⟩, none⟩⟩

/-- Monday 09:00 with `now` exactly 09:00, all defaults, no busy data. -/
def c3env : ScanEnv := ⟨0, 540, 1, 9, 17, [1, 2, 3, 4, 5], []⟩

/-- A working-day set hit only on scan days 2 and 9, one slot per day:
day 9's candidate lies beyond the 7-day query window. -/
def c4env : ScanEnv := ⟨0, 0, 0, 9, 10, [2], []⟩

/-- Busy 10:00–11:00, working window 9–17, `now` 08:00 Monday. -/
def c5env : ScanEnv := ⟨0, 480, 1, 9, 17, [1, 2, 3, 4, 5], [(600, 660)]⟩

def longHeader : String := String.mk (List.replicate 61 'h')

def longRowTitle : String := String.mk (List.replicate 25 't')

def c6row : FlowRow := ⟨"", longRowTitle, "desc"⟩

def c6list : FlowList := ⟨longHeader, "Ver", "", [⟨"Sec", [c6row]⟩]⟩

def c6state : FlowState := ⟨"interactive_list", "body", some c6list, "", none⟩

def c6cfg : FlowConfig := ⟨"1", [("MENU", c6state)]⟩

def c9raw : RawCalendarJSON := ⟨some "cal@example", some 99, some (-5), none⟩

def c9okraw : RawCalendarJSON := ⟨some "cal@example", none, none, none⟩

def c8tmpl : String := "Hola " ++ phOpen ++ "name" ++ phClose

def c8unknown : String := phOpen ++ "x" ++ phClose

def c8multi : String := phOpen ++ "name" ++ phClose ++ " y " ++ phOpen ++ "name" ++ phClose

/-- The template `lbrace lbrace b lbrace lbrace a rbrace rbrace x`. -/
def c10s : String :=
  String.mk [lbrace, lbrace, 'b', lbrace, lbrace, 'a', rbrace, rbrace, 'x']

def c10closer : String := String.mk [rbrace, rbrace]

def c10vars1 : List (String × String) := [("a", c10closer), ("b", "B")]

def c10vars2 : List (String × String) := [("b", "B"), ("a", c10closer)]

/-! ## State-machine theorems (C1, C2) -/

/-- **C1** (amended): for every inbound free-text message whose trimmed
body equals "menu" case-insensitively, `decide` returns
`("MENU", handled=true)` for every current state that is *present* in
the flow definition; for a current state absent from the definition the
lookup short-circuits to `("MENU", handled=false)` before the message
is inspected. -/
theorem c1_menu_escape :
    (∀ (cfg : FlowConfig) (state : String) (st : FlowState) (msg : IncomingMessage)
        (body : String),
      alistGet state cfg.states = some st →
      msg.type = "text" → msg.text = some body →
      equalFold (trimSpace body) "menu" = true →
      decideNext cfg state msg = ("MENU", true)) ∧
    (∀ (cfg : FlowConfig) (state : String) (msg : IncomingMessage),
      alistGet state cfg.states = none →
      decideNext cfg state msg = ("MENU", false)) := by
  constructor
  · intro cfg state st msg body hst hty htx hmenu
    unfold decideNext
    rw [hst, hty, htx]
    simp [hmenu]
  · intro cfg state msg hst
    unfold decideNext
    rw [hst]

/-- Witness for `c1_menu_escape` at a concrete configuration and
message. -/
theorem c1_menu_escape_witness :
    decideNext c1cfg "MENU" c1msg = ("MENU", true) ∧
    decideNext c1cfg "NOPE" c1msg = ("MENU", false) :=
  ⟨c1_menu_escape.1 c1cfg "MENU" menuState c1msg " MeNu " rfl rfl rfl (by decide),
   c1_menu_escape.2 c1cfg "NOPE" c1msg rfl⟩

/-- **C1** counterexample: with the current state `"FOO"` absent from
the flow definition (which loads fine), the "menu" text yields
`("MENU", handled=false)`, not the `("MENU", true)` the claim demands
"regardless of the current state". -/
theorem c1_counterexample :
    equalFold (trimSpace " MeNu ") "menu" = true ∧
    processMessage [] "t" c1cfg "FOO" c1msg = ([("t", c1cfg)], .ok ("MENU", false)) ∧
    decideNext c1cfg "FOO" c1msg ≠ ("MENU", true) := by
  refine ⟨by decide, rfl, by decide⟩

/-- **C2** (amended): for an interactive selection (list row or button)
in a current state present in the definition, `decide` follows the
selection map when it maps the selected id to a *non-empty* state name,
returning `(mappedState, true)`; when the map has no entry for the id,
or maps it to the empty string, or the state has no selection map, it
returns `("MENU", false)`. -/
theorem c2_selection :
    (∀ (cfg : FlowConfig) (state : String) (st : FlowState) (m : List (String × String))
        (ns f mid ts : String) (tx : Option String) (br : Option ButtonReply) (lr : ListReply),
      alistGet state cfg.states = some st →
      st.onSelectNext = some m → alistGet lr.id m = some ns → ns ≠ "" →
      decideNext cfg state ⟨f, mid, ts, "interactive", tx, some ⟨"list_reply", br, some lr⟩⟩ =
        (ns, true)) ∧
    (∀ (cfg : FlowConfig) (state : String) (st : FlowState) (m : List (String × String))
        (ns f mid ts : String) (tx : Option String) (br : ButtonReply) (lr : Option ListReply),
      alistGet state cfg.states = some st →
      st.onSelectNext = some m → alistGet br.id m = some ns → ns ≠ "" →
      decideNext cfg state ⟨f, mid, ts, "interactive", tx, some ⟨"button_reply", some br, lr⟩⟩ =
        (ns, true)) ∧
    (∀ (cfg : FlowConfig) (state : String) (st : FlowState)
        (f mid ts : String) (tx : Option String) (br : Option ButtonReply) (lr : ListReply),
      alistGet state cfg.states = some st →
      (∀ m, st.onSelectNext = some m → ∀ ns, alistGet lr.id m = some ns → ns = "") →
      decideNext cfg state ⟨f, mid, ts, "interactive", tx, some ⟨"list_reply", br, some lr⟩⟩ =
        ("MENU", false)) ∧
    (∀ (cfg : FlowConfig) (state : String) (st : FlowState)
        (f mid ts : String) (tx : Option String) (br : ButtonReply) (lr : Option ListReply),
      alistGet state cfg.states = some st →
      (∀ m, st.onSelectNext = some m → ∀ ns, alistGet br.id m = some ns → ns = "") →
      decideNext cfg state ⟨f, mid, ts, "interactive", tx, some ⟨"button_reply", some br, lr⟩⟩ =
        ("MENU", false)) := by
  refine ⟨?_, ?_, ?_, ?_⟩
  · intro cfg state st m ns f mid ts tx br lr hst hsel hget hne
    unfold decideNext
    rw [hst]
    simpa [selectNext, hsel, hget] using hne
  · intro cfg state st m ns f mid ts tx br lr hst hsel hget hne
    unfold decideNext
    rw [hst]
    simpa [selectNext, hsel, hget] using hne
  · intro cfg state st f mid ts tx br lr hst hmiss
    unfold decideNext
    rw [hst]
    cases hsel : st.onSelectNext with
    | none => simp [selectNext, hsel]
    | some m =>
      cases hget : alistGet lr.id m with
      | none => simp [selectNext, hsel, hget]
      | some ns => simp [selectNext, hsel, hget, hmiss m hsel ns hget]
  · intro cfg state st f mid ts tx br lr hst hmiss
    unfold decideNext
    rw [hst]
    cases hsel : st.onSelectNext with
    | none => simp [selectNext, hsel]
    | some m =>
      cases hget : alistGet br.id m with
      | none => simp [selectNext, hsel, hget]
      | some ns => simp [selectNext, hsel, hget, hmiss m hsel ns hget]

/-- Witness for `c2_selection` at a concrete configuration: the mapped
selection `opt1` transitions to `NEXT` via list and button reply, and a
selection with no usable transition falls back to `("MENU", false)`. -/
theorem c2_selection_witness :
    decideNext c2cfg "S" (c2listMsg "opt1") = ("NEXT", true) ∧
    decideNext c2cfg "S" (c2buttonMsg "opt1") = ("NEXT", true) ∧
    decideNext c2cfg "S" (c2listMsg "missing") = ("MENU", false) :=
  ⟨c2_selection.1 c2cfg "S" c2state [("opt1", "NEXT"), ("emptyTarget", "")] "NEXT"
      "5491155" "wamid.2" "0" none none ⟨"opt1", "Título", ""⟩ rfl rfl rfl (by decide),
   c2_selection.2.1 c2cfg "S" c2state [("opt1", "NEXT"), ("emptyTarget", "")] "NEXT"
      "5491155" "wamid.3" "0" none ⟨"opt1", "Título"⟩ none rfl rfl rfl (by decide),
   c2_selection.2.2.1 c2cfg "S" c2state
      "5491155" "wamid.2" "0" none none ⟨"missing", "Título", ""⟩ rfl
      (by intro m hm ns hns; simp [c2state] at hm; subst hm; simp [alistGet] at hns)⟩

/-- **C2** counterexample: the state `"S"` maps the selected id
`emptyTarget` to the empty string, so its selection map *contains* the
id, yet `decide` returns `("MENU", false)` rather than the
`(mappedState, true)` the claim demands. -/
theorem c2_counterexample :
    alistGet "emptyTarget" [("opt1", "NEXT"), ("emptyTarget", "")] = some "" ∧
    c2state.onSelectNext = some [("opt1", "NEXT"), ("emptyTarget", "")] ∧
    decideNext c2cfg "S" (c2listMsg "emptyTarget") = ("MENU", false) ∧
    decideNext c2cfg "S" (c2listMsg "emptyTarget") ≠ ("", true) := by
  refine ⟨by decide, rfl, rfl, by decide⟩

/-! ## Slot-scan theorems (C3, C4, C5) -/

/-- Invariant of the hour loop: the slot list never exceeds 3 entries
and every collected slot starts no earlier than `now`. -/
theorem hourLoop_invariant (env : ScanEnv) (d : Nat) (n : Nat) :
    ∀ (h : Int) (slots : List Slot) (counter : Nat),
      slots.length ≤ 3 → (∀ s ∈ slots, env.now ≤ s.startMin) →
      (hourLoop env d h n slots counter).1.length ≤ 3 ∧
      ∀ s ∈ (hourLoop env d h n slots counter).1, env.now ≤ s.startMin := by
  induction n with
  | zero =>
    intro h slots counter h1 h2
    exact ⟨h1, h2⟩
  | succ n ih =>
    intro h slots counter h1 h2
    rw [hourLoop]
    split_ifs with c1 c2 c3
    · exact ⟨h1, h2⟩
    · exact ih (h + 1) slots counter h1 h2
    · exact ih (h + 1) slots counter h1 h2
    · apply ih
      · simp only [List.length_append, List.length_cons, List.length_nil]
        omega
      · intro s hs
        rcases List.mem_append.mp hs with hs | hs
        · exact h2 s hs
        · rcases List.mem_singleton.mp hs with rfl
          simpa using le_of_not_lt c2

/-- Invariant of the day loop, inherited from `hourLoop_invariant`. -/
theorem dayLoop_invariant (env : ScanEnv) (n : Nat) :
    ∀ (d : Nat) (slots : List Slot) (counter : Nat),
      slots.length ≤ 3 → (∀ s ∈ slots, env.now ≤ s.startMin) →
      (dayLoop env d n slots counter).length ≤ 3 ∧
      ∀ s ∈ dayLoop env d n slots counter, env.now ≤ s.startMin := by
  induction n with
  | zero =>
    intro d slots counter h1 h2
    exact ⟨h1, h2⟩
  | succ n ih =>
    intro d slots counter h1 h2
    rw [dayLoop]
    split_ifs with c1 c2
    · exact ⟨h1, h2⟩
    · have hh := hourLoop_invariant env d (env.endHour - env.startHour).toNat
        env.startHour slots counter h1 h2
      exact ih (d + 1) _ _ hh.1 hh.2
    · exact ih (d + 1) slots counter h1 h2

/-- **C3** (amended): for every calendar configuration and busy set,
the slot search returns at most 3 slots and no slot whose start is
*strictly before* the evaluation instant; a slot starting exactly at
`now` is *included* (the code only skips `slotStart.Before(now)`). -/
theorem c3_slot_bounds (env : ScanEnv) :
    (getNextAvailableSlots env).length ≤ 3 ∧
    ∀ s ∈ getNextAvailableSlots env, env.now ≤ s.startMin := by
  unfold getNextAvailableSlots
  exact dayLoop_invariant env 10 0 [] 1 (by simp) (by simp)

/-- Witness for `c3_slot_bounds` on a concrete scan environment. -/
theorem c3_slot_bounds_witness :
    (getNextAvailableSlots c3env).length ≤ 3 ∧
    ∀ s ∈ getNextAvailableSlots c3env, c3env.now ≤ s.startMin :=
  c3_slot_bounds c3env

/-- **C3** counterexample: with `now` exactly 09:00 Monday, the first
returned slot starts exactly at the evaluation instant, so a slot
starting "at" now is not excluded as the claim states. -/
theorem c3_counterexample :
    getNextAvailableSlots c3env =
      [⟨"SLOT_1", 540⟩, ⟨"SLOT_2", 600⟩, ⟨"SLOT_3", 660⟩] ∧
    c3env.now = 540 ∧
    ¬ ∀ s ∈ getNextAvailableSlots c3env, c3env.now < s.startMin := by
  refine ⟨by decide, rfl, by decide⟩

/-- **C4** (amended): the single free/busy query window
`[now, now+7d]` covers every candidate slot on the *first seven*
scanned days (given the clamped `endHour ≤ 24` and `now` inside
day 0), but the scan runs up to ten days, so candidates on days 7–9
can lie beyond the window (see the counterexample). -/
theorem c4_window_partial (env : ScanEnv) (d : Nat) (h : Int)
    (h0 : env.todayStart ≤ env.now) (h24 : env.endHour ≤ 24)
    (hd : d < 7) (hh : h < env.endHour)
    (hnow : env.now ≤ slotStartMin env d h) :
    env.now ≤ slotStartMin env d h ∧
    slotStartMin env d h ≤ queryWindowEnd env := by
  refine ⟨hnow, ?_⟩
  unfold slotStartMin queryWindowEnd
  unfold slotStartMin at hnow
  have hd' : (d : Int) ≤ 6 := by exact_mod_cast Nat.le_of_lt_succ hd
  omega

/-- Witness for `c4_window_partial` on day 0, hour 9 of `c3env`. -/
theorem c4_window_partial_witness :
    c3env.now ≤ slotStartMin c3env 0 9 ∧
    slotStartMin c3env 0 9 ≤ queryWindowEnd c3env :=
  c4_window_partial c3env 0 9 (by decide) (by decide) (by decide) (by decide) (by decide)

/-- **C4** counterexample: in `c4env` the scan's second returned slot
(day 9, 09:00, minute 13500) was tested for busyness yet starts after
the end of the 7-day query window (minute 10080), so the one free/busy
query does *not* cover every examined candidate. -/
theorem c4_counterexample :
    getNextAvailableSlots c4env = [⟨"SLOT_1", 3420⟩, ⟨"SLOT_2", 13500⟩] ∧
    queryWindowEnd c4env = 10080 ∧
    ¬ ∀ s ∈ getNextAvailableSlots c4env, s.startMin ≤ queryWindowEnd c4env := by
  refine ⟨by decide, rfl, by decide⟩

/-- **C5**: a candidate slot is classified busy iff it overlaps some
fetched busy interval under half-open intersection
(`slotStart < busyEnd AND slotEnd > busyStart`); concretely, with busy
`[10:00, 11:00)` and working window `[9, 17)` the scan returns 09:00,
11:00 and 12:00 — excluding exactly the 10:00 slot. -/
theorem c5_busy_overlap :
    (∀ (busy : List (Int × Int)) (s e : Int),
      isBusy busy s e = true ↔ ∃ b ∈ busy, s < b.2 ∧ e > b.1) ∧
    getNextAvailableSlots c5env =
      [⟨"SLOT_1", 540⟩, ⟨"SLOT_2", 660⟩, ⟨"SLOT_3", 720⟩] ∧
    isBusy c5env.busy 600 660 = true ∧
    isBusy c5env.busy 540 600 = false ∧
    isBusy c5env.busy 660 720 = false := by
  refine ⟨?_, by decide, by decide, by decide, by decide⟩
  intro busy s e
  simp [isBusy, List.any_eq_true]

/-! ## Calendar-configuration theorems (C9) -/

/-- **C9** (amended): the defaults 9–17 / Monday–Friday are applied
when a setting is absent, when the start hour is negative, when the
end hour exceeds 24, or when the working-day set is empty; the
constructed service therefore has `startHour ≥ 0`, `endHour ≤ 24` and a
non-empty working-day set — but the hours are *not* clamped into range
in general (a start hour above 24 or a negative end hour passes
through, see the counterexample). -/
theorem c9_calendar_defaults (tenant : String) (raw : RawCalendarJSON)
    (svc : CalendarService) (hok : newCalendarService tenant raw = .ok svc) :
    0 ≤ svc.startHour ∧ svc.endHour ≤ 24 ∧ svc.workDays ≠ [] ∧
    (raw.startHour = none → svc.startHour = 9) ∧
    (raw.endHour = none → svc.endHour = 17) ∧
    (raw.workDays = none → svc.workDays = [1, 2, 3, 4, 5]) := by
  simp only [newCalendarService, mergeTenantConfig] at hok
  split_ifs at hok
  all_goals simp only [Except.ok.injEq] at hok
  all_goals subst hok
  all_goals refine ⟨?_, ?_, ?_, fun hn => ?_, fun hn => ?_, fun hn => ?_⟩
  all_goals first
    | assumption
    | decide
    | omega
    | simp_all

/-- Witness for `c9_calendar_defaults` with every setting absent. -/
theorem c9_calendar_defaults_witness :
    0 ≤ (9 : Int) ∧ (17 : Int) ≤ 24 ∧ ([1, 2, 3, 4, 5] : List Int) ≠ [] ∧
    (c9okraw.startHour = none → (9 : Int) = 9) ∧
    (c9okraw.endHour = none → (17 : Int) = 17) ∧
    (c9okraw.workDays = none → ([1, 2, 3, 4, 5] : List Int) = [1, 2, 3, 4, 5]) :=
  c9_calendar_defaults "t" c9okraw ⟨"cal@example", 9, 17, [1, 2, 3, 4, 5]⟩ rfl

/-- **C9** counterexample: `start_hour = 99` and `end_hour = -5` are
out of range but pass through untouched (only `< 0` start hours and
`> 24` end hours are reset), so the constructed service does not always
have in-range hours. -/
theorem c9_counterexample :
    newCalendarService "t" c9raw = .ok ⟨"cal@example", 99, -5, [1, 2, 3, 4, 5]⟩ ∧
    ¬((⟨"cal@example", 99, -5, [1, 2, 3, 4, 5]⟩ : CalendarService).startHour ≤ 24 ∧
      0 ≤ (⟨"cal@example", 99, -5, [1, 2, 3, 4, 5]⟩ : CalendarService).endHour) := by
  refine ⟨by decide, by decide⟩

/-! ## Booking theorems (C7) -/

/-- **C7** (amended): a start timestamp that parses as RFC3339 produces
exactly one event whose start is the canonical RFC3339 rendering of the
parsed instant and whose end is the rendering of that instant plus one
hour (textually equal to the input whenever the input is canonical,
e.g. across the 2024 leap day below); a timestamp that fails to parse
is a hard error and no event is built.  The rendering may differ
textually from the input (see the counterexample). -/
theorem c7_booking :
    (∀ (s n p : String) (t : GoTime), parseRFC3339 s = some t →
      createAppointment s n p =
        .ok ⟨"Turno Flowly: " ++ n, "Paciente agendado vía WhatsApp.\nTeléfono: " ++ p,
          formatRFC3339 t, formatRFC3339 (addOneHour t)⟩) ∧
    (∀ s n p, parseRFC3339 s = none →
      createAppointment s n p = .error "fecha inválida") ∧
    createAppointment "2024-02-28T23:00:00-03:00" "Ana" "555" =
      .ok ⟨"Turno Flowly: Ana", "Paciente agendado vía WhatsApp.\nTeléfono: 555",
        "2024-02-28T23:00:00-03:00", "2024-02-29T00:00:00-03:00"⟩ := by
  refine ⟨?_, ?_, by decide⟩
  · intro s n p t hp
    unfold createAppointment
    rw [hp]
  · intro s n p hp
    unfold createAppointment
    rw [hp]

/-- Witness for `c7_booking` on concrete inputs. -/
theorem c7_booking_witness :
    createAppointment "2024-05-06T09:00:00-03:00" "Eva" "777" =
      .ok ⟨"Turno Flowly: Eva", "Paciente agendado vía WhatsApp.\nTeléfono: 777",
        formatRFC3339 ⟨1714996800, -180⟩, formatRFC3339 (addOneHour ⟨1714996800, -180⟩)⟩ ∧
    createAppointment "no-es-fecha" "Eva" "777" = .error "fecha inválida" :=
  ⟨c7_booking.1 "2024-05-06T09:00:00-03:00" "Eva" "777" ⟨1714996800, -180⟩ (by decide),
   c7_booking.2.1 "no-es-fecha" "Eva" "777" (by decide)⟩

/-- **C7** counterexample: `T = "2024-01-01T10:00:00+00:00"` parses,
but the created event's start is the re-rendering
`"2024-01-01T10:00:00Z"` (Go prints `Z` for a zero offset), which is
not textually equal to `T`; so "start = T" does not hold for every
parseable timestamp. -/
theorem c7_counterexample :
    (parseRFC3339 "2024-01-01T10:00:00+00:00").isSome = true ∧
    createAppointment "2024-01-01T10:00:00+00:00" "Ana" "123" =
      .ok ⟨"Turno Flowly: Ana", "Paciente agendado vía WhatsApp.\nTeléfono: 123",
        "2024-01-01T10:00:00Z", "2024-01-01T11:00:00Z"⟩ ∧
    ("2024-01-01T10:00:00Z" : String) ≠ "2024-01-01T10:00:00+00:00" := by
  refine ⟨by decide, by decide, by decide⟩

/-! ## Validation theorems (C6) -/

/-- Any element of a `joinSep` occurs verbatim inside the join. -/
theorem substr_joinSep (sep m : String) (l : List String) (hm : m ∈ l) :
    Substr m (joinSep sep l) := by
  induction l with
  | nil => cases hm
  | cons x xs ih =>
    cases xs with
    | nil =>
      rcases List.mem_singleton.mp hm with rfl
      exact ⟨[], [], by simp [joinSep]⟩
    | cons y ys =>
      rcases List.mem_cons.mp hm with rfl | hm'
      · exact ⟨[], sep.data ++ (joinSep sep (y :: ys)).data,
          by simp [joinSep, String.data_append]⟩
      · rcases ih hm' with ⟨p, q, hpq⟩
        exact ⟨x.data ++ sep.data ++ p, q,
          by simp [joinSep, String.data_append, hpq]⟩

/-- `Substr` is preserved by prepending text. -/
theorem substr_prepend (t m s : String) (h : Substr m s) : Substr m (t ++ s) := by
  rcases h with ⟨p, q, hpq⟩
  exact ⟨t.data ++ p, q, by simp [String.data_append, hpq]⟩

/-- Every message of a state of the configuration is among the
aggregated messages. -/
theorem mem_flowErrs (cfg : FlowConfig) (stateName : String) (st : FlowState)
    (hmem : (stateName, st) ∈ cfg.states) (m : String)
    (hm : m ∈ stateErrs stateName st) : m ∈ flowErrs cfg :=
  List.mem_flatten.mpr ⟨stateErrs stateName st,
    List.mem_map.mpr ⟨(stateName, st), hmem, rfl⟩, hm⟩

/-- Every aggregated message occurs verbatim in the error text. -/
theorem substr_flowErrString (tenant : String) (cfg : FlowConfig) (m : String)
    (hm : m ∈ flowErrs cfg) : Substr m (flowErrString tenant cfg) :=
  substr_prepend _ _ _ (substr_joinSep _ _ _ hm)

theorem stateErrs_eq (stateName : String) (st : FlowState) (l : FlowList)
    (hty : st.type = "interactive_list") (hl : st.list = some l) :
    stateErrs stateName st = listErrs stateName l := by
  simp [stateErrs, hty, hl]

theorem headerErrMsg_mem (stateName : String) (l : FlowList)
    (hc : runeLen l.header > 60) :
    headerErrMsg stateName l ∈ listErrs stateName l := by
  unfold listErrs
  simp [hc]

theorem footerErrMsg_mem (stateName : String) (l : FlowList)
    (hc : runeLen l.footer > 60) :
    footerErrMsg stateName l ∈ listErrs stateName l := by
  unfold listErrs
  simp [hc]

theorem buttonErrMsg_mem (stateName : String) (l : FlowList)
    (hc : runeLen l.buttonText > 20) :
    buttonErrMsg stateName l ∈ listErrs stateName l := by
  unfold listErrs
  simp [hc]

theorem secTitleErrMsg_mem (stateName : String) (sec : FlowSection)
    (hc : runeLen sec.title > 24) :
    secTitleErrMsg stateName sec ∈ secErrs stateName sec := by
  unfold secErrs
  simp [hc]

theorem rowIdErrMsg_mem (stateName : String) (row : FlowRow)
    (hc : row.id = "") : rowIdErrMsg stateName row ∈ rowErrs stateName row := by
  unfold rowErrs
  simp [hc]

theorem rowTitleErrMsg_mem (stateName : String) (row : FlowRow)
    (hc : runeLen row.title > 24) :
    rowTitleErrMsg stateName row ∈ rowErrs stateName row := by
  unfold rowErrs
  simp [hc]

theorem rowDescErrMsg_mem (stateName : String) (row : FlowRow)
    (hc : runeLen row.description > 72) :
    rowDescErrMsg stateName row ∈ rowErrs stateName row := by
  unfold rowErrs
  simp [hc]

theorem rowErr_mem_secErrs (stateName : String) (sec : FlowSection) (row : FlowRow)
    (hrow : row ∈ sec.rows) (m : String) (hm : m ∈ rowErrs stateName row) :
    m ∈ secErrs stateName sec := by
  unfold secErrs
  exact List.mem_append.mpr (Or.inr (List.mem_flatten.mpr
    ⟨rowErrs stateName row, List.mem_map.mpr ⟨row, hrow, rfl⟩, hm⟩))

theorem secErr_mem_listErrs (stateName : String) (l : FlowList) (sec : FlowSection)
    (hsec : sec ∈ l.sections) (m : String) (hm : m ∈ secErrs stateName sec) :
    m ∈ listErrs stateName l := by
  unfold listErrs
  refine List.mem_append.mpr (Or.inr ?_)
  exact List.mem_flatten.mpr ⟨secErrs stateName sec, List.mem_map.mpr ⟨sec, hsec, rfl⟩, hm⟩

theorem loadFlowConfig_error (tenant : String) (cfg : FlowConfig)
    (hne : flowErrs cfg ≠ []) :
    loadFlowConfig tenant cfg = .error (flowErrString tenant cfg) := by
  have hstates : ¬ cfg.states = [] := by
    intro h0
    apply hne
    unfold flowErrs
    rw [h0]
    rfl
  simp [loadFlowConfig, validateFlowConfig, hstates, hne]

theorem loadOnMiss_error (cache : List (String × FlowConfig)) (tenant : String)
    (cfg : FlowConfig) (hc : alistGet tenant cache = none)
    (hne : flowErrs cfg ≠ []) :
    loadOnMiss cache tenant cfg = (cache, .error (flowErrString tenant cfg)) := by
  unfold loadOnMiss
  rw [hc, loadFlowConfig_error tenant cfg hne]

/-- **C6**: a flow configuration with at least one violation fails to
load, no cache entry is inserted by the load-on-miss step, and the
returned error names every offending field: every violation message —
for each over-limit header/footer/button/section-title/row-title/row-
description and each empty row id of every interactive-list state —
occurs verbatim inside the aggregated error text. -/
theorem c6_validation_aggregates (tenant : String) (cfg : FlowConfig)
    (cache : List (String × FlowConfig))
    (hne : flowErrs cfg ≠ []) (hc : alistGet tenant cache = none) :
    loadFlowConfig tenant cfg = .error (flowErrString tenant cfg) ∧
    loadOnMiss cache tenant cfg = (cache, .error (flowErrString tenant cfg)) ∧
    (∀ stateName st, (stateName, st) ∈ cfg.states →
      ∀ m ∈ stateErrs stateName st, Substr m (flowErrString tenant cfg)) ∧
    (∀ stateName st l, (stateName, st) ∈ cfg.states →
      st.type = "interactive_list" → st.list = some l →
      (runeLen l.header > 60 →
        Substr (headerErrMsg stateName l) (flowErrString tenant cfg)) ∧
      (runeLen l.footer > 60 →
        Substr (footerErrMsg stateName l) (flowErrString tenant cfg)) ∧
      (runeLen l.buttonText > 20 →
        Substr (buttonErrMsg stateName l) (flowErrString tenant cfg)) ∧
      (∀ sec ∈ l.sections,
        (runeLen sec.title > 24 →
          Substr (secTitleErrMsg stateName sec) (flowErrString tenant cfg)) ∧
        ∀ row ∈ sec.rows,
          (row.id = "" →
            Substr (rowIdErrMsg stateName row) (flowErrString tenant cfg)) ∧
          (runeLen row.title > 24 →
            Substr (rowTitleErrMsg stateName row) (flowErrString tenant cfg)) ∧
          (runeLen row.description > 72 →
            Substr (rowDescErrMsg stateName row) (flowErrString tenant cfg)))) := by
  have hsub : ∀ stateName st, (stateName, st) ∈ cfg.states →
      ∀ m ∈ stateErrs stateName st, Substr m (flowErrString tenant cfg) := by
    intro sn st hmem m hm
    exact substr_flowErrString tenant cfg m (mem_flowErrs cfg sn st hmem m hm)
  refine ⟨loadFlowConfig_error tenant cfg hne,
    loadOnMiss_error cache tenant cfg hc hne, hsub, ?_⟩
  intro sn st l hmem hty hl
  have hst : ∀ m, m ∈ listErrs sn l → Substr m (flowErrString tenant cfg) := by
    intro m hm
    exact hsub sn st hmem m (by rw [stateErrs_eq sn st l hty hl]; exact hm)
  refine ⟨fun hc1 => hst _ (headerErrMsg_mem sn l hc1),
    fun hc1 => hst _ (footerErrMsg_mem sn l hc1),
    fun hc1 => hst _ (buttonErrMsg_mem sn l hc1), ?_⟩
  intro sec hsec
  refine ⟨fun hc1 => hst _ (secErr_mem_listErrs sn l sec hsec _
    (secTitleErrMsg_mem sn sec hc1)), ?_⟩
  intro row hrow
  exact ⟨fun hc1 => hst _ (secErr_mem_listErrs sn l sec hsec _
      (rowErr_mem_secErrs sn sec row hrow _ (rowIdErrMsg_mem sn row hc1))),
    fun hc1 => hst _ (secErr_mem_listErrs sn l sec hsec _
      (rowErr_mem_secErrs sn sec row hrow _ (rowTitleErrMsg_mem sn row hc1))),
    fun hc1 => hst _ (secErr_mem_listErrs sn l sec hsec _
      (rowErr_mem_secErrs sn sec row hrow _ (rowDescErrMsg_mem sn row hc1)))⟩

/-- Witness for `c6_validation_aggregates`: `c6cfg` has an over-long
header, an empty row id and an over-long row title; the load fails, the
cache stays empty, and all three messages occur in the error text. -/
theorem c6_validation_aggregates_witness :
    loadFlowConfig "t" c6cfg = .error (flowErrString "t" c6cfg) ∧
    loadOnMiss [] "t" c6cfg = ([], .error (flowErrString "t" c6cfg)) ∧
    Substr (headerErrMsg "MENU" c6list) (flowErrString "t" c6cfg) ∧
    Substr (rowIdErrMsg "MENU" c6row) (flowErrString "t" c6cfg) ∧
    Substr (rowTitleErrMsg "MENU" c6row) (flowErrString "t" c6cfg) := by
  have h := c6_validation_aggregates "t" c6cfg [] (by decide) rfl
  have hdeep := h.2.2.2 "MENU" c6state c6list (by decide) rfl rfl
  have hrowlvl := (hdeep.2.2.2 ⟨"Sec", [c6row]⟩ (by decide)).2 c6row (by decide)
  exact ⟨h.1, h.2.1, hdeep.1 (by decide), hrowlvl.1 rfl, hrowlvl.2.1 (by decide)⟩

/-! ## Template-substitution theorems (C8) -/

theorem replaceAllAux_nil (fuel : Nat) (pat v : List Char) :
    replaceAllAux fuel [] pat v = [] := by
  cases fuel <;> rfl

/-- A pattern that does not occur anywhere is never replaced. -/
theorem replaceAllAux_not_occurs (fuel : Nat) :
    ∀ (s pat v : List Char), occursIn pat s = false →
      replaceAllAux fuel s pat v = s := by
  induction fuel with
  | zero => intro s pat v _; rfl
  | succ n ih =>
    intro s pat v h
    cases s with
    | nil => rfl
    | cons c rest =>
      rw [occursIn, Bool.or_eq_false_iff] at h
      rw [replaceAllAux, if_neg]
      · rw [ih rest pat v h.2]
      · intro hcond
        rw [h.1] at hcond
        exact Bool.false_ne_true hcond.2

theorem replaceAllList_not_occurs (s pat v : List Char)
    (h : occursIn pat s = false) : replaceAllList s pat v = s :=
  replaceAllAux_not_occurs s.length s pat v h

/-- `renderVars` is the identity when no mapped key's placeholder
occurs in the template. -/
theorem renderVars_no_placeholder (s : String) (vars : List (String × String))
    (h : ∀ kv ∈ vars, occursIn (phOpen ++ kv.1 ++ phClose).data s.data = false) :
    renderVars s vars = s := by
  unfold renderVars
  split_ifs with hc
  · rfl
  · clear hc
    induction vars with
    | nil => rfl
    | cons kv rest ih =>
      rw [List.foldl_cons]
      have hstep : replaceAll s (phOpen ++ kv.1 ++ phClose) kv.2 = s := by
        unfold replaceAll
        rw [replaceAllList_not_occurs _ _ _ (h kv (List.mem_cons_self kv rest))]
      rw [hstep]
      exact ih fun kv' hkv' => h kv' (List.mem_cons_of_mem kv hkv')

/-- **C8**: `renderVars` replaces every occurrence of a mapped key
(`"Hola {{name}}" ↦ "Hola Ana"`, `"{{name}} y {{name}}" ↦ "Ana y Ana"`),
leaves placeholders of unmapped keys verbatim (`"{{x}}"` under the
empty mapping is returned unchanged), and is the identity on templates
containing no placeholder of any mapped key. -/
theorem c8_render_vars :
    (∀ (s : String) (vars : List (String × String)),
      (∀ kv ∈ vars, occursIn (phOpen ++ kv.1 ++ phClose).data s.data = false) →
      renderVars s vars = s) ∧
    renderVars c8tmpl [("name", "Ana")] = "Hola Ana" ∧
    renderVars c8unknown [] = c8unknown ∧
    renderVars c8multi [("name", "Ana")] = "Ana y Ana" :=
  ⟨renderVars_no_placeholder, by decide, rfl, by decide⟩

/-- Witness for `c8_render_vars` on a placeholder-free template. -/
theorem c8_render_vars_witness :
    renderVars "Hola" [("name", "Ana")] = "Hola" :=
  c8_render_vars.1 "Hola" [("name", "Ana")] (by decide)

/-! ## Order-independence analysis of `renderVars` (C10)

The analysis works over the segment model: a template that alternates
brace-free literal text with complete placeholders.  On such templates
one `ReplaceAll` step acts segment-wise, so the whole fold computes the
simultaneous substitution `segApply`, which is invariant under
permutations of a duplicate-free mapping. -/

theorem replaceAllList_nil (pat v : List Char) : replaceAllList [] pat v = [] := rfl

/-- The result does not depend on the fuel once it bounds the input
length. -/
theorem replaceAllAux_fuel_irrel (fuel₁ : Nat) :
    ∀ (fuel₂ : Nat) (s pat v : List Char), s.length ≤ fuel₁ → s.length ≤ fuel₂ →
      replaceAllAux fuel₁ s pat v = replaceAllAux fuel₂ s pat v := by
  induction fuel₁ with
  | zero =>
    intro fuel₂ s pat v h1 _
    have hs : s = [] := List.eq_nil_of_length_eq_zero (Nat.le_zero.mp h1)
    subst hs
    rw [replaceAllAux_nil, replaceAllAux_nil]
  | succ n ih =>
    intro fuel₂ s pat v h1 h2
    cases s with
    | nil => rw [replaceAllAux_nil, replaceAllAux_nil]
    | cons c rest =>
      cases fuel₂ with
      | zero =>
        simp only [List.length_cons] at h2
        omega
      | succ m =>
        simp only [List.length_cons] at h1 h2
        rw [replaceAllAux, replaceAllAux]
        split_ifs with hcond
        · have hp : 1 ≤ pat.length := by
            cases pat with
            | nil => exact absurd rfl hcond.1
            | cons _ _ => simp
          congr 1
          apply ih
          · simp only [List.length_drop, List.length_cons]; omega
          · simp only [List.length_drop, List.length_cons]; omega
        · congr 1
          apply ih <;> omega

/-- One-step unfolding of `replaceAllList` on a non-empty input. -/
theorem replaceAllList_cons (c : Char) (rest pat v : List Char) :
    replaceAllList (c :: rest) pat v =
      if pat ≠ [] ∧ leadsWith pat (c :: rest) = true then
        v ++ replaceAllList ((c :: rest).drop pat.length) pat v
      else c :: replaceAllList rest pat v := by
  unfold replaceAllList
  rw [show (c :: rest).length = rest.length + 1 from rfl, replaceAllAux]
  split_ifs with hcond
  · have hp : 1 ≤ pat.length := by
      cases pat with
      | nil => exact absurd rfl hcond.1
      | cons _ _ => simp
    congr 1
    apply replaceAllAux_fuel_irrel
    · simp only [List.length_drop, List.length_cons]; omega
    · simp only [List.length_drop, List.length_cons]; omega
  · rfl

theorem leadsWith_append_self (pat u : List Char) :
    leadsWith pat (pat ++ u) = true := by
  induction pat with
  | nil => rfl
  | cons p ps ih => simp [leadsWith, ih]

theorem braceFree_mem (l : List Char) (h : braceFree l = true) (c : Char)
    (hm : c ∈ l) : c ≠ lbrace ∧ c ≠ rbrace := by
  simp only [braceFree, List.all_eq_true] at h
  simpa using h c hm

theorem braceFree_cons_iff (c : Char) (l : List Char) :
    braceFree (c :: l) = true ↔ (c ≠ lbrace ∧ c ≠ rbrace) ∧ braceFree l = true := by
  simp [braceFree]

/-- A scan whose pattern starts with `lbrace` passes over
`lbrace`-free text unchanged. -/
theorem replaceAllList_skip (pat v p : List Char) (hpat : pat = lbrace :: p) :
    ∀ (t u : List Char), (∀ c ∈ t, c ≠ lbrace) →
      replaceAllList (t ++ u) pat v = t ++ replaceAllList u pat v := by
  intro t
  induction t with
  | nil => intro u _; simp
  | cons c t' ih =>
    intro u hc
    have hcl : c ≠ lbrace := hc c (List.mem_cons_self c t')
    rw [List.cons_append, replaceAllList_cons, if_neg]
    · rw [ih u fun c' h' => hc c' (List.mem_cons_of_mem c h')]
      rfl
    · intro hcond
      have h2 := hcond.2
      rw [hpat] at h2
      simp only [leadsWith, Bool.and_eq_true, beq_iff_eq] at h2
      exact hcl h2.1.symm

/-- Distinct brace-free keys: one key's closed tail never leads the
other's. -/
theorem leadsWith_keys_ne (k : List Char) :
    ∀ (k' u : List Char), braceFree k = true → braceFree k' = true → k ≠ k' →
      leadsWith (k ++ [rbrace, rbrace]) ((k' ++ [rbrace, rbrace]) ++ u) = false := by
  induction k with
  | nil =>
    intro k' u _ hbf' hne
    cases k' with
    | nil => exact absurd rfl hne
    | cons b bs =>
      have hb : b ≠ rbrace := ((braceFree_cons_iff b bs).mp hbf').1.2
      have hrb : (rbrace == b) = false := by
        simp only [beq_eq_false_iff_ne, ne_eq]
        exact fun h => hb h.symm
      simp [leadsWith, hrb]
  | cons a as ih =>
    intro k' u hbf hbf' hne
    have ha := (braceFree_cons_iff a as).mp hbf
    cases k' with
    | nil =>
      have hab : (a == rbrace) = false := by
        simp only [beq_eq_false_iff_ne, ne_eq]
        exact ha.1.2
      simp [leadsWith, hab]
    | cons b bs =>
      have hbtail := (braceFree_cons_iff b bs).mp hbf'
      by_cases hab : a = b
      · subst hab
        have htail := ih bs u ha.2 hbtail.2 (fun h => hne (by rw [h]))
        rw [List.append_assoc] at htail
        simpa [leadsWith] using htail
      · have hab' : (a == b) = false := by
          simp only [beq_eq_false_iff_ne, ne_eq]
          exact hab
        simp [leadsWith, hab']

/-- The placeholder of key `k` does not lead the placeholder of a
distinct brace-free key `k'`. -/
theorem leadsWith_ph_ne (k k' u : List Char) (hbf : braceFree k = true)
    (hbf' : braceFree k' = true) (hne : k ≠ k') :
    leadsWith (phKeyList k) (phKeyList k' ++ u) = false := by
  have h := leadsWith_keys_ne k k' u hbf hbf' hne
  rw [List.append_assoc] at h
  simpa [phKeyList, leadsWith] using h

/-- The placeholder of `k` does not lead from the *second* brace of
another placeholder block. -/
theorem leadsWith_ph_mid (k k' u : List Char) (hbf' : braceFree k' = true) :
    leadsWith (phKeyList k) (lbrace :: ((k' ++ [rbrace, rbrace]) ++ u)) = false := by
  cases k' with
  | nil =>
    have hbr : (lbrace == rbrace) = false := by decide
    simp [phKeyList, leadsWith, hbr]
  | cons b bs =>
    have hb : (lbrace == b) = false := by
      simp only [beq_eq_false_iff_ne, ne_eq]
      exact fun h => ((braceFree_cons_iff b bs).mp hbf').1.1 h.symm
    simp [phKeyList, leadsWith, hb]

/-- Replacing at an exact placeholder occurrence. -/
theorem replaceAllList_match (k u v : List Char) :
    replaceAllList (phKeyList k ++ u) (phKeyList k) v =
      v ++ replaceAllList u (phKeyList k) v := by
  have h1 : phKeyList k ++ u = lbrace :: ((lbrace :: (k ++ [rbrace, rbrace])) ++ u) := by
    simp [phKeyList]
  rw [h1, replaceAllList_cons, if_pos]
  · have hdrop : (lbrace :: ((lbrace :: (k ++ [rbrace, rbrace])) ++ u)).drop
        (phKeyList k).length = u := by
      rw [← h1]
      exact List.drop_left _ _
    rw [hdrop]
  · constructor
    · simp [phKeyList]
    · rw [← h1]
      exact leadsWith_append_self _ _

/-- A scan passes over a complete placeholder block of a *different*
brace-free key unchanged. -/
theorem replaceAllList_ph_block (k k' u v : List Char) (hbf : braceFree k = true)
    (hbf' : braceFree k' = true) (hne : k ≠ k') :
    replaceAllList (phKeyList k' ++ u) (phKeyList k) v =
      phKeyList k' ++ replaceAllList u (phKeyList k) v := by
  have h1 : phKeyList k' ++ u = lbrace :: (lbrace :: ((k' ++ [rbrace, rbrace]) ++ u)) := by
    simp [phKeyList]
  have hneg1 : ¬(phKeyList k ≠ [] ∧
      leadsWith (phKeyList k) (lbrace :: (lbrace :: ((k' ++ [rbrace, rbrace]) ++ u))) = true) := by
    intro hcond
    have h2 := hcond.2
    rw [← h1, leadsWith_ph_ne k k' u hbf hbf' hne] at h2
    exact Bool.false_ne_true h2
  have hneg2 : ¬(phKeyList k ≠ [] ∧
      leadsWith (phKeyList k) (lbrace :: ((k' ++ [rbrace, rbrace]) ++ u)) = true) := by
    intro hcond
    have h2 := hcond.2
    rw [leadsWith_ph_mid k k' u hbf'] at h2
    exact Bool.false_ne_true h2
  have hall : ∀ c ∈ k' ++ [rbrace, rbrace], c ≠ lbrace := by
    intro c hcm
    rcases List.mem_append.mp hcm with hck | hcr
    · exact (braceFree_mem k' hbf' c hck).1
    · rcases List.mem_cons.mp hcr with rfl | hcr'
      · decide
      · rcases List.mem_singleton.mp hcr' with rfl
        decide
  rw [h1, replaceAllList_cons, if_neg hneg1, replaceAllList_cons, if_neg hneg2,
    replaceAllList_skip (phKeyList k) v (lbrace :: (k ++ [rbrace, rbrace])) rfl
      (k' ++ [rbrace, rbrace]) u hall]
  simp [phKeyList]

theorem assemble_cons (seg : Seg) (rest : List Seg) :
    assemble (seg :: rest) = assembleSeg seg ++ assemble rest := by
  simp [assemble]

/-- One `ReplaceAll` step on a well-delimited template substitutes
exactly the placeholders with the scanned key. -/
theorem replaceAllList_assemble (k v : List Char) (hbfk : braceFree k = true) :
    ∀ segs, wfSegs segs = true →
      replaceAllList (assemble segs) (phKeyList k) v =
        assemble (segs.map (segSubstOne k v)) := by
  intro segs
  induction segs with
  | nil => intro _; rfl
  | cons seg rest ih =>
    intro hwf
    have hw : wfSeg seg = true ∧ wfSegs rest = true := by
      simpa [wfSegs] using hwf
    cases seg with
    | txt t =>
      have ht : ∀ c ∈ t, c ≠ lbrace := fun c hc =>
        (braceFree_mem t (by simpa [wfSeg] using hw.1) c hc).1
      rw [assemble_cons, show assembleSeg (Seg.txt t) = t from rfl,
        replaceAllList_skip (phKeyList k) v (lbrace :: (k ++ [rbrace, rbrace])) rfl
          t (assemble rest) ht,
        ih hw.2, List.map_cons, assemble_cons]
      rfl
    | ph k' =>
      by_cases hk : k' = k
      · subst hk
        rw [assemble_cons, show assembleSeg (Seg.ph k') = phKeyList k' from rfl,
          replaceAllList_match, ih hw.2, List.map_cons, assemble_cons,
          show segSubstOne k' v (Seg.ph k') = Seg.txt v by simp [segSubstOne]]
        rfl
      · rw [assemble_cons, show assembleSeg (Seg.ph k') = phKeyList k' from rfl,
          replaceAllList_ph_block k k' (assemble rest) v hbfk
            (by simpa [wfSeg] using hw.1) (fun h => hk h.symm),
          ih hw.2, List.map_cons, assemble_cons,
          show segSubstOne k v (Seg.ph k') = Seg.ph k' by simp [segSubstOne, hk]]
        rfl

/-- Substituting brace-free text preserves well-formedness. -/
theorem wfSegs_map_subst (k v : List Char) (hbfv : braceFree v = true) :
    ∀ segs, wfSegs segs = true → wfSegs (segs.map (segSubstOne k v)) = true := by
  intro segs
  induction segs with
  | nil => intro _; rfl
  | cons seg rest ih =>
    intro hwf
    have hw : wfSeg seg = true ∧ wfSegs rest = true := by
      simpa [wfSegs] using hwf
    have hrest := ih hw.2
    cases seg with
    | txt t =>
      simpa [wfSegs, segSubstOne, wfSeg] using
        ⟨(by simpa [wfSeg] using hw.1 : braceFree t = true), by simpa [wfSegs] using hrest⟩
    | ph k' =>
      by_cases hk : k' = k
      · subst hk
        simpa [wfSegs, segSubstOne, wfSeg] using
          ⟨hbfv, by simpa [wfSegs] using hrest⟩
      · simpa [wfSegs, segSubstOne, hk, wfSeg] using
          ⟨(by simpa [wfSeg] using hw.1 : braceFree k' = true), by simpa [wfSegs] using hrest⟩

/-- Peeling one mapping entry off the simultaneous substitution. -/
theorem segApply_cons (kv : String × String) (rest : List (String × String)) (seg : Seg) :
    segApply (kv :: rest) seg = segApply rest (segSubstOne kv.1.data kv.2.data seg) := by
  cases seg with
  | txt t => rfl
  | ph k =>
    by_cases hk : k = kv.1.data
    · have he : kv.1 = String.mk k := by rw [hk]
      simp [segApply, segSubstOne, alistGet, hk, ← he]
    · have he : ¬ kv.1 = String.mk k := fun h => hk (by rw [h])
      simp [segApply, segSubstOne, alistGet, hk, he]

/-- Go-map lookup is permutation-invariant on duplicate-free keys. -/
theorem alistGet_perm {β : Type} (k : String) (l₁ l₂ : List (String × β))
    (hperm : l₁.Perm l₂) : (l₁.map Prod.fst).Nodup → alistGet k l₁ = alistGet k l₂ := by
  induction hperm with
  | nil => intro _; rfl
  | cons x h ih =>
    intro hnd
    simp only [alistGet]
    split_ifs with hx
    · rfl
    · refine ih ?_
      simp only [List.map_cons, List.nodup_cons] at hnd
      exact hnd.2
  | swap x y l =>
    intro hnd
    have hxy : y.1 ≠ x.1 := by
      simp only [List.map_cons, List.nodup_cons, List.mem_cons] at hnd
      exact fun h => hnd.1 (Or.inl h)
    simp only [alistGet]
    split_ifs with h1 h2 h2 <;> try rfl
    · exact absurd (h1.trans h2.symm) hxy
  | trans h₁ h₂ ih₁ ih₂ =>
    intro hnd
    rw [ih₁ hnd, ih₂ ((h₁.map Prod.fst).nodup_iff.mp hnd)]

theorem segApply_perm (vars vars' : List (String × String)) (hperm : vars.Perm vars')
    (hnd : (vars.map Prod.fst).Nodup) (seg : Seg) :
    segApply vars seg = segApply vars' seg := by
  cases seg with
  | txt t => rfl
  | ph k =>
    simp only [segApply]
    rw [alistGet_perm (String.mk k) vars vars' hperm hnd]

theorem renderList_nil_input (vars : List (String × String)) :
    renderList [] vars = [] := by
  induction vars with
  | nil => rfl
  | cons kv rest ih =>
    unfold renderList
    rw [List.foldl_cons, replaceAllList_nil]
    exact ih

theorem phKey_data (k : String) :
    (phOpen ++ k ++ phClose).data = phKeyList k.data := by
  simp [phOpen, phClose, phKeyList, String.data_append]

/-- `renderVars` at the character-list level. -/
theorem renderVars_eq_renderList (l : List Char) (vars : List (String × String)) :
    renderVars (String.mk l) vars = String.mk (renderList l vars) := by
  unfold renderVars
  split_ifs with hc
  · rcases hc with hc | hc
    · have hl : l = [] := by
        have := congrArg String.data hc
        simpa using this
      subst hl
      rw [renderList_nil_input]
    · subst hc
      rfl
  · clear hc
    induction vars generalizing l with
    | nil => rfl
    | cons kv rest ih =>
      rw [List.foldl_cons]
      unfold renderList
      rw [List.foldl_cons]
      have hstep : replaceAll (String.mk l) (phOpen ++ kv.1 ++ phClose) kv.2 =
          String.mk (replaceAllList l (phKeyList kv.1.data) kv.2.data) := by
        unfold replaceAll
        rw [phKey_data]
      rw [hstep]
      exact ih (replaceAllList l (phKeyList kv.1.data) kv.2.data)

/-- The sequential fold computes the simultaneous substitution on
well-delimited templates with brace-free keys and values. -/
theorem renderList_assemble (vars : List (String × String)) :
    ∀ segs, wfSegs segs = true →
      (∀ kv ∈ vars, braceFree kv.1.data = true ∧ braceFree kv.2.data = true) →
      renderList (assemble segs) vars = assemble (segs.map (segApply vars)) := by
  induction vars with
  | nil =>
    intro segs _ _
    have hid : segs.map (segApply []) = segs := by
      have h1 : segs.map (segApply []) = segs.map id :=
        List.map_congr_left fun seg _ => by cases seg <;> rfl
      rw [h1, List.map_id]
    rw [hid]
    rfl
  | cons kv rest ih =>
    intro segs hwf hbf
    have hkv := hbf kv (List.mem_cons_self kv rest)
    unfold renderList
    rw [List.foldl_cons,
      show replaceAllList (assemble segs) (phKeyList kv.1.data) kv.2.data =
          assemble (segs.map (segSubstOne kv.1.data kv.2.data)) from
        replaceAllList_assemble kv.1.data kv.2.data hkv.1 segs hwf]
    have ihh := ih (segs.map (segSubstOne kv.1.data kv.2.data))
      (wfSegs_map_subst kv.1.data kv.2.data hkv.2 segs hwf)
      (fun kv' h' => hbf kv' (List.mem_cons_of_mem kv h'))
    unfold renderList at ihh
    rw [ihh, List.map_map]
    congr 1
    exact List.map_congr_left fun seg _ => (segApply_cons kv rest seg).symm

/-- **C10** (amended): `renderVars` is order-independent on
well-delimited templates — an alternation of brace-free literal text
and complete placeholders — whenever the mapping's keys and values are
brace-free and the keys are duplicate-free.  The claim's own weaker
precondition (no value contains the placeholder text of any key) is
*not* sufficient, because a replacement can complete a placeholder of
another key across segment boundaries; see the counterexample. -/
theorem c10_order_independent (segs : List Seg) (vars vars' : List (String × String))
    (hwf : wfSegs segs = true)
    (hbf : ∀ kv ∈ vars, braceFree kv.1.data = true ∧ braceFree kv.2.data = true)
    (hperm : vars.Perm vars') (hnd : (vars.map Prod.fst).Nodup) :
    renderVars (String.mk (assemble segs)) vars =
      renderVars (String.mk (assemble segs)) vars' := by
  have hbf' : ∀ kv ∈ vars', braceFree kv.1.data = true ∧ braceFree kv.2.data = true :=
    fun kv hkv => hbf kv (hperm.symm.subset hkv)
  rw [renderVars_eq_renderList, renderVars_eq_renderList,
    renderList_assemble vars segs hwf hbf, renderList_assemble vars' segs hwf hbf']
  congr 1
  exact congrArg assemble
    (List.map_congr_left fun seg _ => segApply_perm vars vars' hperm hnd seg)

/-- Witness for `c10_order_independent` on the template
`"Hola " ++ placeholder name` under the two orders of a two-key map. -/
theorem c10_order_independent_witness :
    renderVars (String.mk (assemble [Seg.txt "Hola ".data, Seg.ph "name".data]))
        [("name", "Ana"), ("x", "Y")] =
      renderVars (String.mk (assemble [Seg.txt "Hola ".data, Seg.ph "name".data]))
        [("x", "Y"), ("name", "Ana")] :=
  c10_order_independent [Seg.txt "Hola ".data, Seg.ph "name".data]
    [("name", "Ana"), ("x", "Y")] [("x", "Y"), ("name", "Ana")]
    (by decide) (by decide) (List.Perm.swap ("x", "Y") ("name", "Ana") []) (by decide)

/-- **C10** counterexample: with the template
`lbrace lbrace b lbrace lbrace a rbrace rbrace x` and the mapping
`a ↦ rbrace rbrace, b ↦ "B"` — whose values contain no key's
placeholder text and whose keys are distinct — the two substitution
orders produce different results, because substituting `a` first
*creates* the placeholder of `b`. -/
theorem c10_counterexample :
    renderVars c10s c10vars1 = "Bx" ∧
    renderVars c10s c10vars2 = String.mk [lbrace, lbrace, 'b', rbrace, rbrace, 'x'] ∧
    renderVars c10s c10vars1 ≠ renderVars c10s c10vars2 ∧
    c10vars1.Perm c10vars2 ∧
    (c10vars1.map Prod.fst).Nodup ∧
    (∀ kv ∈ c10vars1, ∀ kv' ∈ c10vars1,
      occursIn (phKeyList kv'.1.data) kv.2.data = false) := by
  refine ⟨by decide, by decide, by decide,
    List.Perm.swap ("b", "B") ("a", c10closer) [], by decide, by decide⟩

end Flowly
